/-
Verification of the crypto paper-trading agent (portfolio ledger,
indicator engine, signal generator, backtest driver, performance
summarizer) against its natural-language specification.

Python floats are modelled as rationals (ℚ); pandas NaN/None is modelled
as `Option`; Python dicts keyed by market code are modelled as
association lists `List (String × _)` with dict-style lookup, update and
delete; `datetime.now()` timestamps are modelled as an opaque-to-the-logic
natural number (they never influence control flow).
-/

import Mathlib

set_option maxRecDepth 4000

namespace Crypto

/- Batteries marks the rational-number operations `@[irreducible]`;
making them semireducible again lets concrete runs of the model be
checked by `decide`. -/
attribute [local semireducible] Rat.add Rat.mul Rat.inv Rat.sub Rat.ofScientific

/-! ## Portfolio ledger (portfolio.py) -/

/-- `Position` dataclass of portfolio.py: one open position per market. -/
structure Position where
  market : String
  amount_krw : ℚ
  entry_price : ℚ
  quantity : ℚ
  entry_time : ℕ := 0
  deriving Repr, DecidableEq

/-- `Position.current_value`. -/
def Position.current_value (p : Position) (current_price : ℚ) : ℚ :=
  p.quantity * current_price

/-- `Position.pnl`. -/
def Position.pnl (p : Position) (current_price : ℚ) : ℚ :=
  p.current_value current_price - p.amount_krw

/-- `Position.pnl_pct`. -/
def Position.pnl_pct (p : Position) (current_price : ℚ) : ℚ :=
  if p.amount_krw = 0 then 0 else p.pnl current_price / p.amount_krw * 100

/-- One entry of `Portfolio.trade_history` (a Python dict whose keys
differ between BUY and SELL records). -/
inductive TradeRec where
  | buyRec (time : ℕ) (market : String) (price amount_krw quantity : ℚ)
  | sellRec (time : ℕ) (market : String) (price proceeds_krw profit_krw : ℚ)
  deriving Repr, DecidableEq

/-- Dict lookup `positions[market]` / `market in positions`. -/
def lookupPos : List (String × Position) → String → Option Position
  | [], _ => none
  | (k, v) :: rest, m => if k = m then some v else lookupPos rest m

/-- Dict assignment `positions[market] = pos` (replace if present,
else append, preserving insertion order). -/
def setPos : List (String × Position) → String → Position → List (String × Position)
  | [], m, v => [(m, v)]
  | (k, w) :: rest, m, v =>
      if k = m then (k, v) :: rest else (k, w) :: setPos rest m v

/-- Dict deletion `del positions[market]`. -/
def delPos (ps : List (String × Position)) (m : String) : List (String × Position) :=
  ps.filter (fun kv => kv.1 ≠ m)

/-- The `Portfolio` class state: cash, open positions, trade history. -/
structure Portfolio where
  cash_krw : ℚ
  positions : List (String × Position)
  trade_history : List TradeRec
  deriving Repr, DecidableEq

/-- `Portfolio.__init__(initial_krw)`. -/
def Portfolio.init (initial_krw : ℚ) : Portfolio :=
  { cash_krw := initial_krw, positions := [], trade_history := [] }

/-- `Portfolio.buy(market, amount_krw, current_price)`: returns the
Python boolean result together with the (possibly unchanged) state. -/
def Portfolio.buy (p : Portfolio) (market : String) (amount_krw current_price : ℚ)
    (now : ℕ := 0) : Bool × Portfolio :=
  if p.cash_krw < amount_krw then (false, p)
  else
    let quantity := amount_krw / current_price
    let fee := amount_krw * (5 / 10000)
    let newPositions :=
      match lookupPos p.positions market with
      | some pos =>
          let total_qty := pos.quantity + quantity
          let total_krw := pos.amount_krw + amount_krw
          setPos p.positions market
            { pos with entry_price := total_krw / total_qty,
                       quantity := total_qty, amount_krw := total_krw }
      | none =>
          setPos p.positions market
            { market := market, amount_krw := amount_krw,
              entry_price := current_price, quantity := quantity, entry_time := now }
    (true,
      { cash_krw := p.cash_krw - (amount_krw + fee),
        positions := newPositions,
        trade_history := p.trade_history ++
          [TradeRec.buyRec now market current_price amount_krw quantity] })

/-- `Portfolio.sell(market, current_price)`. -/
def Portfolio.sell (p : Portfolio) (market : String) (current_price : ℚ)
    (now : ℕ := 0) : Bool × Portfolio :=
  match lookupPos p.positions market with
  | none => (false, p)
  | some pos =>
      let proceeds := pos.quantity * current_price
      let fee := proceeds * (5 / 10000)
      let net_proceeds := proceeds - fee
      let profit := net_proceeds - pos.amount_krw
      (true,
        { cash_krw := p.cash_krw + net_proceeds,
          positions := delPos p.positions market,
          trade_history := p.trade_history ++
            [TradeRec.sellRec now market current_price net_proceeds profit] })

/-- One element of the `positions` list in `calculate_returns`. -/
structure PositionDetail where
  market : String
  entry_price : ℚ
  current_price : ℚ
  quantity : ℚ
  invested_krw : ℚ
  current_value_krw : ℚ
  pnl_krw : ℚ
  pnl_pct : ℚ
  deriving Repr, DecidableEq

/-- The dict returned by `Portfolio.calculate_returns`. -/
structure ReturnsRec where
  total_value_krw : ℚ
  cash_krw : ℚ
  positions_value_krw : ℚ
  total_invested_krw : ℚ
  total_pnl_krw : ℚ
  total_pnl_pct : ℚ
  positions : List PositionDetail
  trade_count : ℕ
  deriving Repr, DecidableEq

/-- Dict lookup with default: `current_prices.get(market, default)`. -/
def priceGet : List (String × ℚ) → String → ℚ → ℚ
  | [], _, d => d
  | (k, v) :: rest, m, d => if k = m then v else priceGet rest m d

/-- The loop body of `calculate_returns` for one open position: appends
its detail record and accumulates `total_invested` and `total_current`. -/
def returnsStep (current_prices : List (String × ℚ))
    (acc : List PositionDetail × ℚ × ℚ) (kv : String × Position) :
    List PositionDetail × ℚ × ℚ :=
  let pos := kv.2
  let price := priceGet current_prices kv.1 pos.entry_price
  let cur_val := pos.current_value price
  (acc.1 ++ [{ market := kv.1, entry_price := pos.entry_price,
               current_price := price, quantity := pos.quantity,
               invested_krw := pos.amount_krw, current_value_krw := cur_val,
               pnl_krw := pos.pnl price, pnl_pct := pos.pnl_pct price }],
   acc.2.1 + pos.amount_krw, acc.2.2 + cur_val)

/-- `Portfolio.calculate_returns(current_prices)`: iterates over the open
positions, valuing each at its current price (entry price when absent). -/
def Portfolio.calculate_returns (p : Portfolio) (current_prices : List (String × ℚ)) :
    ReturnsRec :=
  let acc := p.positions.foldl (returnsStep current_prices) ([], 0, 0)
  let total_invested := acc.2.1
  let total_current := acc.2.2
  { total_value_krw := p.cash_krw + total_current,
    cash_krw := p.cash_krw,
    positions_value_krw := total_current,
    total_invested_krw := total_invested,
    total_pnl_krw := total_current - total_invested,
    total_pnl_pct :=
      if 0 < total_invested then (total_current - total_invested) / total_invested * 100
      else 0,
    positions := acc.1,
    trade_count := p.trade_history.length }

/-! ## Shared parameters (backtest.py parameter block; backtest.py notes
they coincide with config.py, which the live modules import). -/

def RSI_PERIOD : ℕ := 14

def RSI_OVERSOLD : ℚ := 30

def RSI_OVERBOUGHT : ℚ := 70

def MA_SHORT : ℕ := 5

def MA_LONG : ℕ := 20

def INITIAL_CAPITAL : ℚ := 1000000

/-! ## Indicator engine (backtest.py `calc_rsi`, market_data.py
`calculate_rsi`, rolling moving averages). NaN is `none`. -/

/-- `series.diff()`: first entry NaN, then successive differences. -/
def pdDiff : List ℚ → List (Option ℚ)
  | [] => []
  | x :: xs => none :: List.zipWith (fun a b => some (b - a)) (x :: xs) xs

/-- `series.rolling(period).mean()`: mean of the trailing `period`-entry
window, NaN while the window is not yet full or contains a NaN. -/
def rollingMean (period : ℕ) (l : List (Option ℚ)) : List (Option ℚ) :=
  (List.range l.length).map (fun i =>
    if i + 1 < period then none
    else
      let window := (l.drop (i + 1 - period)).take period
      if window.all Option.isSome then
        some ((window.foldl (fun acc o => acc + o.getD 0) 0) / (period : ℚ))
      else none)

/-- The shared tail of both RSI variants:
`rs = gain / loss.replace(0, nan); rsi = 100 - (100 / (1 + rs))`. -/
def rsiFrom (gain loss : List (Option ℚ)) : List (Option ℚ) :=
  List.zipWith (fun g l =>
    match g, l with
    | some g, some l => if l = 0 then none else some (100 - 100 / (1 + g / l))
    | _, _ => none) gain loss

/-- backtest.py `calc_rsi`: rolling-mean smoothing of clipped gains and
losses of the close-to-close differences. -/
def calc_rsi (series : List ℚ) (period : ℕ := RSI_PERIOD) : List (Option ℚ) :=
  let delta := pdDiff series
  let gain := rollingMean period (delta.map (Option.map (fun d => max d 0)))
  let loss := rollingMean period (delta.map (Option.map (fun d => -(min d 0))))
  rsiFrom gain loss

/-- `series.ewm(com, min_periods).mean()` with pandas defaults
(`adjust=True`, `ignore_na=False`): weighted mean of the observations so
far with weights `(com/(com+1))^(distance)`, NaN until `min_periods`
non-NaN observations have been seen. -/
def ewmMean (com minp : ℕ) (l : List (Option ℚ)) : List (Option ℚ) :=
  let beta : ℚ := (com : ℚ) / ((com : ℚ) + 1)
  (List.range l.length).map (fun i =>
    if (l.take (i + 1)).countP (fun o => o.isSome) < minp then none
    else
      let wv := (List.range (i + 1)).map (fun j => (l.getD j none, beta ^ (i - j)))
      let num := wv.foldl (fun acc ow =>
        match ow.1 with | some v => acc + v * ow.2 | none => acc) 0
      let den := wv.foldl (fun acc ow =>
        match ow.1 with | some _ => acc + ow.2 | none => acc) 0
      if den = 0 then none else some (num / den))

/-- market_data.py `calculate_rsi`: Wilder exponential smoothing
(`ewm(com=period-1, min_periods=period)`) of clipped gains and losses. -/
def calculate_rsi (series : List ℚ) (period : ℕ := RSI_PERIOD) : List (Option ℚ) :=
  let delta := pdDiff series
  let gain := delta.map (Option.map (fun d => max d 0))
  let loss := delta.map (Option.map (fun d => -(min d 0)))
  let avg_gain := ewmMean (period - 1) period gain
  let avg_loss := ewmMean (period - 1) period loss
  rsiFrom avg_gain avg_loss

/-! ## Live signal path (strategy.py) -/

/-- One row of the indicator-augmented frame consumed by strategy.py
(`close`, `rsi`, `ma_short`, `ma_long`). -/
structure SigRow where
  close : ℚ
  rsi : Option ℚ
  ma_short : Option ℚ
  ma_long : Option ℚ
  deriving Repr, DecidableEq, Inhabited

/-- Pandas-style comparison on possibly-NaN values: false if either
side is NaN. -/
def cmpLt (a b : Option ℚ) : Bool :=
  match a, b with
  | some x, some y => decide (x < y)
  | _, _ => false

/-- Pandas-style `≤` on possibly-NaN values: false if either side is NaN. -/
def cmpLe (a b : Option ℚ) : Bool :=
  match a, b with
  | some x, some y => decide (x ≤ y)
  | _, _ => false

/-- `pd.notna(o) and o < c`. -/
def optLt (o : Option ℚ) (c : ℚ) : Bool :=
  match o with
  | some x => decide (x < c)
  | none => false

/-- `pd.notna(o) and o > c`. -/
def optGt (o : Option ℚ) (c : ℚ) : Bool :=
  match o with
  | some x => decide (c < x)
  | none => false

/-- strategy.py `check_ma_crossover`: compares the last two rows; any
NaN among the four moving-average values yields `(false, false)`. -/
def check_ma_crossover (df : List SigRow) : Bool × Bool :=
  if df.length < 2 then (false, false)
  else
    let prev := df.getD (df.length - 2) default
    let curr := df.getD (df.length - 1) default
    match prev.ma_short, prev.ma_long, curr.ma_short, curr.ma_long with
    | some ps, some pl, some cs, some cl =>
        (decide (ps < pl) && decide (cl ≤ cs), decide (pl < ps) && decide (cs ≤ cl))
    | _, _, _, _ => (false, false)

/-- Python 3 `round` (banker's rounding) of a rational to an integer. -/
def roundHalfEven (x : ℚ) : ℤ :=
  let f := Int.floor x
  let r := x - f
  if r < 1 / 2 then f
  else if 1 / 2 < r then f + 1
  else if f % 2 = 0 then f else f + 1

/-- `round(x, 2)` as used on the reported indicator fields. -/
def round2 (x : ℚ) : ℚ := (roundHalfEven (x * 100) : ℚ) / 100

/-- The `reason` strings built by `generate_signal`, kept structurally
(the embedded numbers are carried as rationals instead of formatted
decimal text). -/
inductive SigReason where
  | dataShort
  | oversoldGolden (rsi : ℚ)
  | overboughtDead (rsi : ℚ)
  | holdInfo (rsiPart : Option ℚ) (trendUp : Option Bool)
  deriving Repr, DecidableEq

/-- The dict returned by strategy.py `generate_signal`. -/
structure Signal where
  market : String
  signal : String
  rsi : Option ℚ
  ma_short : Option ℚ
  ma_long : Option ℚ
  close : Option ℚ
  reason : SigReason
  deriving Repr, DecidableEq

/-- strategy.py `generate_signal`: BUY on oversold RSI plus golden
cross, SELL on overbought RSI plus dead cross, otherwise HOLD; fewer
than two rows force a HOLD with every indicator field absent. -/
def generate_signal (df : List SigRow) (market : String := "") : Signal :=
  if df.length < 2 then
    { market := market, signal := "HOLD", rsi := none, ma_short := none,
      ma_long := none, close := none, reason := SigReason.dataShort }
  else
    let latest := df.getD (df.length - 1) default
    let cross := check_ma_crossover df
    let base : Signal :=
      { market := market, signal := "HOLD",
        rsi := latest.rsi.map round2,
        ma_short := latest.ma_short.map round2,
        ma_long := latest.ma_long.map round2,
        close := some latest.close,
        reason := SigReason.dataShort }
    if optLt latest.rsi RSI_OVERSOLD && cross.1 then
      { base with signal := "BUY",
                  reason := SigReason.oversoldGolden (latest.rsi.getD 0) }
    else if optGt latest.rsi RSI_OVERBOUGHT && cross.2 then
      { base with signal := "SELL",
                  reason := SigReason.overboughtDead (latest.rsi.getD 0) }
    else
      { base with signal := "HOLD",
                  reason := SigReason.holdInfo latest.rsi
                    (match latest.ma_short, latest.ma_long with
                     | some ms, some ml => some (decide (ml < ms))
                     | _, _ => none) }

/-! ## Backtest driver (backtest.py) -/

/-- One row of the indicator-augmented frame built by
`add_indicators`: a bar `(date, close)` plus `rsi`, `ma5`, `ma20` and
the transition-based crossover flags. -/
structure BRow where
  date : ℕ
  close : ℚ
  rsi : Option ℚ
  ma5 : Option ℚ
  ma20 : Option ℚ
  golden : Bool
  dead : Bool
  deriving Repr, DecidableEq, Inhabited

/-- backtest.py `add_indicators`: attaches rolling RSI, MA5, MA20 and
the shift-by-one golden/dead crossover flags (pandas comparisons with
NaN are false, and `shift(1)` makes row 0's previous values NaN). -/
def add_indicators (bars : List (ℕ × ℚ)) : List BRow :=
  let closes := bars.map (fun b => b.2)
  let rsis := calc_rsi closes RSI_PERIOD
  let m5 := rollingMean MA_SHORT (closes.map some)
  let m20 := rollingMean MA_LONG (closes.map some)
  (List.range bars.length).map (fun i =>
    let p5 := if i = 0 then none else m5.getD (i - 1) none
    let p20 := if i = 0 then none else m20.getD (i - 1) none
    let c5 := m5.getD i none
    let c20 := m20.getD i none
    { date := (bars.getD i (0, 0)).1,
      close := (bars.getD i (0, 0)).2,
      rsi := rsis.getD i none,
      ma5 := c5,
      ma20 := c20,
      golden := cmpLe p5 p20 && cmpLt c20 c5,
      dead := cmpLe p20 p5 && cmpLt c5 c20 })

/-- `df.dropna(subset=["rsi", "ma5", "ma20"])`. -/
def dropnaRows (rows : List BRow) : List BRow :=
  rows.filter (fun r => r.rsi.isSome && r.ma5.isSome && r.ma20.isSome)

/-- One completed trade recorded by the backtest loop. -/
structure BTrade where
  entry_date : Option ℕ
  exit_date : ℕ
  entry_price : ℚ
  exit_price : ℚ
  pnl_krw : ℚ
  pnl_pct : ℚ
  reason : String
  deriving Repr, DecidableEq

/-- The loop state of `run_backtest`: cash, held quantity, entry data,
completed trades and the per-bar equity list. -/
structure BtState where
  cash : ℚ
  position : ℚ
  entry_price : ℚ
  entry_date : Option ℕ
  trades : List BTrade
  equity : List ℚ
  deriving Repr, DecidableEq

/-- The initial loop state (`cash = capital`, flat). -/
def btInit (capital : ℚ) : BtState :=
  { cash := capital, position := 0, entry_price := 0, entry_date := none,
    trades := [], equity := [] }

/-- The loop body of `run_backtest` for one row: RSI-oversold entry,
RSI-overbought-or-dead-cross-flag exit, then the equity append. -/
def btStep (st : BtState) (row : BRow) : BtState :=
  let st1 :=
    if decide (st.position = 0) && optLt row.rsi RSI_OVERSOLD then
      { st with position := st.cash / row.close, entry_price := row.close,
                entry_date := some row.date, cash := 0 }
    else if decide (0 < st.position) && row.rsi.isSome then
      let sell_rsi := optGt row.rsi RSI_OVERBOUGHT
      let sell_dead := row.dead
      if sell_rsi || sell_dead then
        let exit_val := st.position * row.close
        { st with
          cash := exit_val, position := 0,
          trades := st.trades ++
            [{ entry_date := st.entry_date, exit_date := row.date,
               entry_price := st.entry_price, exit_price := row.close,
               pnl_krw := exit_val - st.position * st.entry_price,
               pnl_pct := (row.close - st.entry_price) / st.entry_price * 100,
               reason :=
                 (if sell_rsi then "RSI 과매수" else "") ++
                 (if sell_dead && sell_rsi then " + 데드크로스"
                  else if sell_dead then "데드크로스" else "") }] }
      else st
    else st
  { st1 with equity := st1.equity ++ [st1.cash + st1.position * row.close] }

/-- The forced end-of-period liquidation appended after the loop when a
position is still open. -/
def btForce (st : BtState) (df : List BRow) : BtState :=
  if 0 < st.position then
    match df.getLast? with
    | some last =>
        let exit_val := st.position * last.close
        { st with
          cash := exit_val,
          trades := st.trades ++
            [{ entry_date := st.entry_date, exit_date := last.date,
               entry_price := st.entry_price, exit_price := last.close,
               pnl_krw := exit_val - st.position * st.entry_price,
               pnl_pct := (last.close - st.entry_price) / st.entry_price * 100,
               reason := "기간 종료 강제 청산" }],
          equity := st.equity ++ [exit_val] }
    | none => st
  else st

/-- Running-maximum helper for `np.maximum.accumulate`. -/
def runningMax : ℚ → List ℚ → List ℚ
  | _, [] => []
  | m, x :: xs => max m x :: runningMax (max m x) xs

/-- `np.maximum.accumulate` on the equity curve. -/
def maximumAccumulate : List ℚ → List ℚ
  | [] => []
  | x :: xs => runningMax x (x :: xs)

/-- `dd = (eq - peak) / peak * 100`, elementwise against the running peak. -/
def drawdowns (eq : List ℚ) : List ℚ :=
  List.zipWith (fun e p => (e - p) / p * 100) eq (maximumAccumulate eq)

/-- `mdd = float(dd.min()) if len(dd) else 0.0`. -/
def maxDrawdown (eq : List ℚ) : ℚ :=
  match drawdowns eq with
  | [] => 0
  | d :: ds => ds.foldl min d

/-- The structured result dict of `run_backtest`. -/
structure BtResult where
  market : String
  initial : ℚ
  final : ℚ
  total_return : ℚ
  n_trades : ℕ
  win_rate : ℚ
  mdd : ℚ
  trades : List BTrade
  equity : List ℚ
  df_len : ℕ
  deriving Repr, DecidableEq

/-- backtest.py `run_backtest` on an already-fetched bar sequence:
indicator augmentation, NaN-row drop, the trading loop, forced
liquidation, and the performance summary. -/
def run_backtest (market : String) (bars : List (ℕ × ℚ))
    (capital : ℚ := INITIAL_CAPITAL) : BtResult :=
  let df := dropnaRows (add_indicators bars)
  let looped := df.foldl btStep (btInit capital)
  let st := btForce looped df
  let n := st.trades.length
  { market := market,
    initial := capital,
    final := st.cash,
    total_return := (st.cash - capital) / capital * 100,
    n_trades := n,
    win_rate :=
      if n ≠ 0 then
        ((st.trades.filter (fun t => decide (0 < t.pnl_pct))).length : ℚ) / (n : ℚ) * 100
      else 0,
    mdd := maxDrawdown st.equity,
    trades := st.trades,
    equity := st.equity,
    df_len := df.length }

/-! ## Auxiliary definitions for the statements -/

/-- The successive loop states of `run_backtest`: entry `i` is the state
before bar `i` of the filtered frame is processed. -/
def btStates (capital : ℚ) (rows : List BRow) : List BtState :=
  List.scanl btStep (btInit capital) rows

/-- Total invested amount over a position dict (the `total_invested`
accumulator of `calculate_returns`). -/
def positionsInvested (ps : List (String × Position)) : ℚ :=
  (ps.map (fun kv => kv.2.amount_krw)).sum

/-- Total current value over a position dict (the `total_current`
accumulator of `calculate_returns`), each position valued at its current
price, defaulting to its entry price. -/
def positionsCurrentValue (prices : List (String × ℚ)) (ps : List (String × Position)) : ℚ :=
  (ps.map (fun kv => kv.2.current_value (priceGet prices kv.1 kv.2.entry_price))).sum

/-- A strictly declining bar series: closes 100, 99, 98, ... -/
def declineBars (n : ℕ) : List (ℕ × ℚ) :=
  (List.range n).map (fun i => (i, (100 : ℚ) - i))

/-- A bar series that declines for 22 bars and then rises by 10 per bar:
drives the backtest into a position and later into an RSI-overbought exit. -/
def vBars : List (ℕ × ℚ) :=
  declineBars 22 ++ (List.range 14).map (fun i => ((22 + i : ℕ), (79 + 10 * ((i : ℚ) + 1) : ℚ)))

/-! ## Helper lemmas -/

theorem lookupPos_setPos_self (ps : List (String × Position)) (m : String) (v : Position) :
    lookupPos (setPos ps m v) m = some v := by
  induction ps with
  | nil => simp [setPos, lookupPos]
  | cons kv rest ih =>
      by_cases h : kv.1 = m
      · simp [setPos, lookupPos, h]
      · simp [setPos, lookupPos, h, ih]

theorem lookupPos_delPos_self (ps : List (String × Position)) (m : String) :
    lookupPos (delPos ps m) m = none := by
  induction ps with
  | nil => simp [delPos, lookupPos]
  | cons kv rest ih =>
      by_cases h : kv.1 = m
      · simpa [delPos, h] using ih
      · simpa [delPos, lookupPos, h] using ih

/-! ## C1: the insufficient-funds check and post-buy cash -/

/-- C1 counterexample: with cash 1000, `buy` of amount 1000 at price 10
is accepted even though amount plus the 0.05% fee (1000.5) exceeds the
available cash, and the resulting cash is negative — refuting both the
claimed failure condition (`amount + fee > cash` fails cleanly) and the
claimed invariant `cash_after_buy >= 0` for accepted buys. -/
theorem buy_fee_check_counterexample :
    (((Portfolio.init 1000).buy "KRW-BTC" 1000 10).fst = true) ∧
    (((Portfolio.init 1000).buy "KRW-BTC" 1000 10).snd.cash_krw < 0) ∧
    ((Portfolio.init 1000).cash_krw < 1000 + 1000 * (5 / 10000)) := by
  decide

/-- C1 (amended): `buy` fails as a clean no-op (cash, positions and trade
history unchanged) exactly when the requested amount exceeds the
available cash — the fee is not part of the funds check; every accepted
buy leaves `cash_after = cash_before - amount - fee`, which is
nonnegative whenever `cash_before >= amount + fee` (for a nonnegative
amount), but is negative when `amount <= cash_before < amount + fee`. -/
theorem buy_no_fee_in_funds_check (p : Portfolio) (m : String) (a pr : ℚ) (now : ℕ) :
    ((p.buy m a pr now).fst = false ↔ p.cash_krw < a) ∧
    ((p.buy m a pr now).fst = false → (p.buy m a pr now).snd = p) ∧
    (a ≤ p.cash_krw →
      (p.buy m a pr now).fst = true ∧
      (p.buy m a pr now).snd.cash_krw = p.cash_krw - a - a * (5 / 10000)) ∧
    (0 ≤ a → a + a * (5 / 10000) ≤ p.cash_krw →
      0 ≤ (p.buy m a pr now).snd.cash_krw) := by
  by_cases h : p.cash_krw < a
  · refine ⟨by simp [Portfolio.buy, h], by simp [Portfolio.buy, h],
      fun hle => absurd hle (not_le.mpr h), fun ha hfee => ?_⟩
    have hfee0 : 0 ≤ a * (5 / 10000) := by positivity
    have : a ≤ p.cash_krw := le_trans (by linarith) hfee
    exact absurd this (not_le.mpr h)
  · have hle : a ≤ p.cash_krw := not_lt.mp h
    refine ⟨by simp [Portfolio.buy, h], by simp [Portfolio.buy, h],
      fun _ => ⟨by simp [Portfolio.buy, h], by simp [Portfolio.buy, h]; ring⟩,
      fun ha hfee => ?_⟩
    have : (p.buy m a pr now).snd.cash_krw = p.cash_krw - (a + a * (5 / 10000)) := by
      simp [Portfolio.buy, h]
    rw [this]
    linarith

/-- Witness for `buy_no_fee_in_funds_check` at concrete inputs. -/
theorem buy_no_fee_in_funds_check_witness :
    (((Portfolio.init 1000).buy "KRW-BTC" 2000 10).snd = Portfolio.init 1000) ∧
    (((Portfolio.init 1000).buy "KRW-BTC" 100 10).fst = true) ∧
    (0 ≤ ((Portfolio.init 1000).buy "KRW-BTC" 100 10).snd.cash_krw) :=
  ⟨(buy_no_fee_in_funds_check (Portfolio.init 1000) "KRW-BTC" 2000 10 0).2.1 (by decide),
   ((buy_no_fee_in_funds_check (Portfolio.init 1000) "KRW-BTC" 100 10 0).2.2.1 (by decide)).1,
   (buy_no_fee_in_funds_check (Portfolio.init 1000) "KRW-BTC" 100 10 0).2.2.2 (by decide) (by decide)⟩

/-! ## C4: sell computes net proceeds, realized P&L, and closes the position -/

/-- C4: for a portfolio holding an open position in `m`, `sell(m, price)`
succeeds, credits gross proceeds `quantity * price` minus the 0.05%
proportional fee to cash, appends a SELL trade record whose realized
P&L is the net proceeds minus the invested amount, and removes the
position (the market becomes FLAT). -/
theorem sell_closes_position (p : Portfolio) (m : String) (pr : ℚ) (now : ℕ)
    (pos : Position) (h : lookupPos p.positions m = some pos) :
    (p.sell m pr now).fst = true ∧
    (p.sell m pr now).snd.cash_krw
      = p.cash_krw + (pos.quantity * pr - pos.quantity * pr * (5 / 10000)) ∧
    lookupPos (p.sell m pr now).snd.positions m = none ∧
    (p.sell m pr now).snd.trade_history
      = p.trade_history ++ [TradeRec.sellRec now m pr
          (pos.quantity * pr - pos.quantity * pr * (5 / 10000))
          (pos.quantity * pr - pos.quantity * pr * (5 / 10000) - pos.amount_krw)] := by
  refine ⟨by simp [Portfolio.sell, h], by simp [Portfolio.sell, h],
    ?_, by simp [Portfolio.sell, h]⟩
  simp [Portfolio.sell, h, lookupPos_delPos_self]

/-- Witness for `sell_closes_position` at a concrete portfolio. -/
theorem sell_closes_position_witness :
    (Portfolio.sell
      { cash_krw := 7, positions := [("KRW-BTC",
          { market := "KRW-BTC", amount_krw := 100, entry_price := 10, quantity := 10 })],
        trade_history := [] } "KRW-BTC" 20 0).snd.cash_krw = 7 + (10 * 20 - 10 * 20 * (5 / 10000)) ∧
    lookupPos (Portfolio.sell
      { cash_krw := 7, positions := [("KRW-BTC",
          { market := "KRW-BTC", amount_krw := 100, entry_price := 10, quantity := 10 })],
        trade_history := [] } "KRW-BTC" 20 0).snd.positions "KRW-BTC" = none :=
  ⟨(sell_closes_position _ "KRW-BTC" 20 0
      { market := "KRW-BTC", amount_krw := 100, entry_price := 10, quantity := 10 }
      (by decide)).2.1,
   (sell_closes_position _ "KRW-BTC" 20 0
      { market := "KRW-BTC", amount_krw := 100, entry_price := 10, quantity := 10 }
      (by decide)).2.2.1⟩

/-! ## C5: average-cost basis after two sequential buys -/

/-- C5: starting FLAT in market `m`, two accepted buys of `a1 @ p1` then
`a2 @ p2` leave a position with `quantity = a1/p1 + a2/p2`,
`invested_amount = a1 + a2`, and
`avg_entry_price = (a1 + a2) / (a1/p1 + a2/p2)`. -/
theorem buy_average_cost (p : Portfolio) (m : String) (a1 p1 a2 p2 : ℚ)
    (hm : lookupPos p.positions m = none)
    (h1 : a1 ≤ p.cash_krw)
    (h2 : a2 ≤ (p.buy m a1 p1).snd.cash_krw)
    (_hp1 : 0 < p1) (_hp2 : 0 < p2) :
    lookupPos ((p.buy m a1 p1).snd.buy m a2 p2).snd.positions m
      = some { market := m, amount_krw := a1 + a2,
               entry_price := (a1 + a2) / (a1 / p1 + a2 / p2),
               quantity := a1 / p1 + a2 / p2, entry_time := 0 } := by
  have hnot1 : ¬ p.cash_krw < a1 := not_lt.mpr h1
  have hnot2 : ¬ (p.buy m a1 p1).snd.cash_krw < a2 := not_lt.mpr h2
  simp only [Portfolio.buy, hm, if_neg hnot1] at hnot2 ⊢
  simp [Portfolio.buy, if_neg hnot2, lookupPos_setPos_self]

/-- Witness for `buy_average_cost`: 100 @ 10 then 300 @ 30 gives the
weighted average entry price 20. -/
theorem buy_average_cost_witness :
    lookupPos (((Portfolio.init 1000000).buy "KRW-BTC" 100 10).snd.buy
        "KRW-BTC" 300 30).snd.positions "KRW-BTC"
      = some { market := "KRW-BTC", amount_krw := 400, entry_price := 20,
               quantity := 20, entry_time := 0 } := by
  rw [buy_average_cost (Portfolio.init 1000000) "KRW-BTC" 100 10 300 30
    (by decide) (by decide) (by decide) (by decide) (by decide)]
  decide

/-! ## C6: golden cross and dead cross are mutually exclusive -/

theorem decide_lt_not_both (x y : ℚ) : (decide (x < y) && decide (y < x)) = false := by
  by_cases h : x < y
  · simp [h, lt_asymm h]
  · simp [h]

theorem cmpLt_not_both (a b : Option ℚ) : (cmpLt a b && cmpLt b a) = false := by
  cases a with
  | none => simp [cmpLt]
  | some x =>
      cases b with
      | none => simp [cmpLt]
      | some y => simpa [cmpLt] using decide_lt_not_both x y

theorem and_first_false (w x z y : Bool) (h : (w && z) = false) :
    ((w && x) && (z && y)) = false := by
  cases w <;> cases z <;> simp_all

theorem and_second_false (x w y z : Bool) (h : (w && z) = false) :
    ((x && w) && (y && z)) = false := by
  cases w <;> cases z <;> simp_all

/-- C6: the golden-cross and dead-cross flags are never both true on the
same bar transition, in the live-signal detector `check_ma_crossover`
and in the backtest crossover-flag computation of `add_indicators`. -/
theorem crossover_flags_exclusive :
    (∀ df : List SigRow,
      ((check_ma_crossover df).1 && (check_ma_crossover df).2) = false) ∧
    (∀ bars : List (ℕ × ℚ), ∀ r ∈ add_indicators bars, (r.golden && r.dead) = false) := by
  constructor
  · intro df
    by_cases hlen : df.length < 2
    · simp [check_ma_crossover, hlen]
    · rcases hps : (df.getD (df.length - 2) default).ma_short with _ | ps <;>
      rcases hpl : (df.getD (df.length - 2) default).ma_long with _ | pl <;>
      rcases hcs : (df.getD (df.length - 1) default).ma_short with _ | cs <;>
      rcases hcl : (df.getD (df.length - 1) default).ma_long with _ | cl <;>
      simp only [check_ma_crossover, hlen, if_false, hps, hpl, hcs, hcl] <;>
      first
        | rfl
        | exact and_first_false _ _ _ _ (decide_lt_not_both ps pl)
  · intro bars r hr
    unfold add_indicators at hr
    simp only [List.mem_map, List.mem_range] at hr
    obtain ⟨i, hi, rfl⟩ := hr
    exact and_second_false _ _ _ _ (cmpLt_not_both _ _)

/-- Witness for `crossover_flags_exclusive`: a two-row frame whose
moving averages sit exactly on the boundary, and the first indicator
row of a one-bar backtest frame. -/
theorem crossover_flags_exclusive_witness :
    ((check_ma_crossover
        [{ close := 1, rsi := none, ma_short := some 1, ma_long := some 1 },
         { close := 2, rsi := none, ma_short := some 1, ma_long := some 1 }]).1 &&
     (check_ma_crossover
        [{ close := 1, rsi := none, ma_short := some 1, ma_long := some 1 },
         { close := 2, rsi := none, ma_short := some 1, ma_long := some 1 }]).2) = false ∧
    (({ date := 0, close := 1, rsi := none, ma5 := none, ma20 := none,
        golden := false, dead := false : BRow }.golden &&
      { date := 0, close := 1, rsi := none, ma5 := none, ma20 := none,
        golden := false, dead := false : BRow }.dead) = false) :=
  ⟨crossover_flags_exclusive.1 _,
   crossover_flags_exclusive.2 [((0 : ℕ), (1 : ℚ))]
     { date := 0, close := 1, rsi := none, ma5 := none, ma20 := none,
       golden := false, dead := false } (by decide)⟩

/-! ## C9: insufficient history forces a bare HOLD signal -/

/-- C9: on an indicator frame with fewer than two rows (the empty frame
included), `generate_signal` returns HOLD with the data-insufficient
reason and with `rsi`, `ma_short`, `ma_long` and `close` all absent. -/
theorem generate_signal_data_insufficient (df : List SigRow) (m : String)
    (h : df.length < 2) :
    generate_signal df m
      = { market := m, signal := "HOLD", rsi := none, ma_short := none,
          ma_long := none, close := none, reason := SigReason.dataShort } := by
  simp [generate_signal, h]

/-- Witness for `generate_signal_data_insufficient` on the empty frame. -/
theorem generate_signal_data_insufficient_witness :
    generate_signal [] "KRW-BTC"
      = { market := "KRW-BTC", signal := "HOLD", rsi := none, ma_short := none,
          ma_long := none, close := none, reason := SigReason.dataShort } :=
  generate_signal_data_insufficient [] "KRW-BTC" (by decide)

/-! ## C8: maximum drawdown is nonpositive, zero on non-decreasing curves -/

theorem foldl_min_le (ds : List ℚ) : ∀ d : ℚ, ds.foldl min d ≤ d := by
  induction ds with
  | nil => intro d; simp
  | cons x xs ih =>
      intro d
      calc xs.foldl min (min d x) ≤ min d x := ih _
        _ ≤ d := min_le_left _ _

theorem zipWith_dd_nonpos (xs : List ℚ) : ∀ m : ℚ, 0 < m → (∀ x ∈ xs, 0 < x) →
    ∀ d ∈ List.zipWith (fun e p => (e - p) / p * 100) xs (runningMax m xs), d ≤ 0 := by
  induction xs with
  | nil => simp
  | cons x xs ih =>
      intro m hm hpos d hd
      rw [runningMax] at hd
      simp only [List.zipWith_cons_cons, List.mem_cons] at hd
      have hmx : 0 < max m x := lt_of_lt_of_le hm (le_max_left m x)
      rcases hd with h | h
      · subst h
        have hdiv : (x - max m x) / max m x ≤ 0 :=
          div_nonpos_iff.mpr (Or.inr ⟨sub_nonpos.mpr (le_max_right m x), le_of_lt hmx⟩)
        exact mul_nonpos_iff.mpr (Or.inr ⟨hdiv, by norm_num⟩)
      · exact ih (max m x) hmx (fun y hy => hpos y (List.mem_cons_of_mem _ hy)) d h

theorem runningMax_chain_eq (xs : List ℚ) : ∀ m x : ℚ, m ≤ x →
    List.Chain' (· ≤ ·) (x :: xs) → runningMax m (x :: xs) = x :: xs := by
  induction xs with
  | nil => intro m x hmx _; simp [runningMax, max_eq_right hmx]
  | cons y ys ih =>
      intro m x hmx hch
      have hxy : x ≤ y := (List.chain'_cons.mp hch).1
      have hch2 : List.Chain' (· ≤ ·) (y :: ys) := (List.chain'_cons.mp hch).2
      rw [runningMax, max_eq_right hmx, ih x y hxy hch2]

theorem foldl_min_all_zero (ds : List ℚ) : ∀ d : ℚ, d = 0 → (∀ x ∈ ds, x = 0) →
    ds.foldl min d = 0 := by
  induction ds with
  | nil => intro d hd _; simpa using hd
  | cons x xs ih =>
      intro d hd hall
      have hx : x = 0 := hall x (List.mem_cons_self _ _)
      have : min d x = 0 := by rw [hd, hx]; simp
      exact ih (min d x) this (fun y hy => hall y (List.mem_cons_of_mem _ hy))

/-- C8: over an equity curve of strictly positive values, the maximum
drawdown is nonpositive, is zero for the empty curve, and is zero for
any non-decreasing curve. -/
theorem max_drawdown_props (eqc : List ℚ) (hpos : ∀ x ∈ eqc, 0 < x) :
    maxDrawdown eqc ≤ 0 ∧ (eqc = [] → maxDrawdown eqc = 0) ∧
    (List.Chain' (· ≤ ·) eqc → maxDrawdown eqc = 0) := by
  refine ⟨?_, ?_, ?_⟩
  · cases heq : eqc with
    | nil => simp [maxDrawdown, drawdowns, maximumAccumulate]
    | cons x xs =>
        have hx : 0 < x := hpos x (by rw [heq]; exact List.mem_cons_self _ _)
        have hall : ∀ y ∈ x :: xs, 0 < y := by rw [← heq]; exact hpos
        unfold maxDrawdown
        cases hdd : drawdowns (x :: xs) with
        | nil => simp
        | cons d ds =>
            have hdmem : d ∈ drawdowns (x :: xs) := by rw [hdd]; exact List.mem_cons_self _ _
            have hd0 : d ≤ 0 := by
              have := zipWith_dd_nonpos (x :: xs) x hx hall
              exact this d (by simpa [drawdowns, maximumAccumulate] using hdmem)
            exact le_trans (foldl_min_le ds d) hd0
  · intro h
    subst h
    simp [maxDrawdown, drawdowns, maximumAccumulate]
  · intro hch
    cases heq : eqc with
    | nil => simp [maxDrawdown, drawdowns, maximumAccumulate]
    | cons x xs =>
        have hacc : maximumAccumulate (x :: xs) = x :: xs := by
          unfold maximumAccumulate
          exact runningMax_chain_eq xs x x le_rfl (heq ▸ hch)
        have hdd : drawdowns (x :: xs) = (x :: xs).map (fun e => (e - e) / e * 100) := by
          unfold drawdowns
          rw [hacc, List.zipWith_same]
        have hzero : ∀ d ∈ drawdowns (x :: xs), d = 0 := by
          intro d hd
          rw [hdd] at hd
          obtain ⟨e, _, rfl⟩ := List.mem_map.mp hd
          simp
        unfold maxDrawdown
        cases hdd2 : drawdowns (x :: xs) with
        | nil => simp
        | cons d ds =>
            refine foldl_min_all_zero ds d ?_ ?_
            · exact hzero d (by rw [hdd2]; exact List.mem_cons_self _ _)
            · intro y hy
              exact hzero y (by rw [hdd2]; exact List.mem_cons_of_mem _ hy)

/-- Witness for `max_drawdown_props` on the rising curve `[1, 2]`. -/
theorem max_drawdown_props_witness :
    maxDrawdown [(1 : ℚ), 2] ≤ 0 ∧ maxDrawdown [(1 : ℚ), 2] = 0 :=
  ⟨(max_drawdown_props [1, 2] (by decide)).1,
   (max_drawdown_props [1, 2] (by decide)).2.2
     (List.chain'_cons.mpr ⟨by norm_num, List.chain'_singleton 2⟩)⟩

/-! ## C10: the portfolio snapshot P&L covers open positions only -/

theorem returns_foldl_spec (prices : List (String × ℚ)) (ps : List (String × Position)) :
    ∀ (dtl : List PositionDetail) (i c : ℚ),
      ((ps.foldl (returnsStep prices) (dtl, i, c)).2.1 = i + positionsInvested ps) ∧
      ((ps.foldl (returnsStep prices) (dtl, i, c)).2.2 = c + positionsCurrentValue prices ps) := by
  induction ps with
  | nil => intro dtl i c; simp [positionsInvested, positionsCurrentValue]
  | cons kv ps ih =>
      intro dtl i c
      simp only [List.foldl_cons, returnsStep]
      constructor
      · rw [(ih _ _ _).1]
        simp only [positionsInvested, List.map_cons, List.sum_cons]
        ring
      · rw [(ih _ _ _).2]
        simp only [positionsCurrentValue, List.map_cons, List.sum_cons]
        ring

/-- C10: the snapshot `total_pnl` equals the current value of the open
positions minus their invested amounts; it is independent of cash and
of the trade history (so realized P&L and paid fees never enter), and a
portfolio with no open positions reports `total_pnl = 0` and
`total_pnl_pct = 0`. -/
theorem returns_pnl_unrealized_only (p q : Portfolio) (prices : List (String × ℚ))
    (hpq : p.positions = q.positions) :
    ((p.calculate_returns prices).total_pnl_krw
       = positionsCurrentValue prices p.positions - positionsInvested p.positions) ∧
    ((p.calculate_returns prices).total_pnl_krw
       = (q.calculate_returns prices).total_pnl_krw ∧
     (p.calculate_returns prices).total_pnl_pct
       = (q.calculate_returns prices).total_pnl_pct) ∧
    (p.positions = [] →
      (p.calculate_returns prices).total_pnl_krw = 0 ∧
      (p.calculate_returns prices).total_pnl_pct = 0) := by
  have key : ∀ r : Portfolio,
      (r.calculate_returns prices).total_pnl_krw
        = positionsCurrentValue prices r.positions - positionsInvested r.positions ∧
      (r.calculate_returns prices).total_pnl_pct
        = (if 0 < positionsInvested r.positions then
            (positionsCurrentValue prices r.positions - positionsInvested r.positions)
              / positionsInvested r.positions * 100 else 0) := by
    intro r
    have h1 := (returns_foldl_spec prices r.positions [] 0 0).1
    have h2 := (returns_foldl_spec prices r.positions [] 0 0).2
    constructor
    · simp only [Portfolio.calculate_returns]
      rw [h1, h2]
      ring
    · simp only [Portfolio.calculate_returns]
      rw [h1, h2]
      simp
  refine ⟨(key p).1, ⟨?_, ?_⟩, ?_⟩
  · rw [(key p).1, (key q).1, hpq]
  · rw [(key p).2, (key q).2, hpq]
  · intro h
    rw [(key p).1, (key p).2, h]
    simp [positionsInvested, positionsCurrentValue]

/-- Witness for `returns_pnl_unrealized_only`: two portfolios sharing
positions but with different cash and trade history report the same
P&L, and a flat portfolio reports zero. -/
theorem returns_pnl_unrealized_only_witness :
    (({ cash_krw := 1000,
        positions := [("KRW-BTC",
          { market := "KRW-BTC", amount_krw := 100, entry_price := 10, quantity := 10 })],
        trade_history := [] : Portfolio }.calculate_returns []).total_pnl_krw
      = ({ cash_krw := 5,
           positions := [("KRW-BTC",
             { market := "KRW-BTC", amount_krw := 100, entry_price := 10, quantity := 10 })],
           trade_history := [TradeRec.sellRec 0 "KRW-BTC" 1 1 1] : Portfolio
         }.calculate_returns []).total_pnl_krw) ∧
    (((Portfolio.init 777).calculate_returns []).total_pnl_krw = 0 ∧
     ((Portfolio.init 777).calculate_returns []).total_pnl_pct = 0) :=
  ⟨(returns_pnl_unrealized_only
      { cash_krw := 1000,
        positions := [("KRW-BTC",
          { market := "KRW-BTC", amount_krw := 100, entry_price := 10, quantity := 10 })],
        trade_history := [] }
      { cash_krw := 5,
        positions := [("KRW-BTC",
          { market := "KRW-BTC", amount_krw := 100, entry_price := 10, quantity := 10 })],
        trade_history := [TradeRec.sellRec 0 "KRW-BTC" 1 1 1] }
      [] rfl).2.1.1,
   (returns_pnl_unrealized_only (Portfolio.init 777) (Portfolio.init 777) [] rfl).2.2 rfl⟩

/-! ## C3: one equity point per surviving bar, plus forced liquidation -/

theorem btStep_equity_len (s : BtState) (r : BRow) :
    (btStep s r).equity.length = s.equity.length + 1 := by
  unfold btStep
  split
  · simp
  · split
    · dsimp only
      split
      · simp
      · simp
    · simp

theorem foldl_btStep_equity_len (rows : List BRow) : ∀ s : BtState,
    (rows.foldl btStep s).equity.length = s.equity.length + rows.length := by
  induction rows with
  | nil => intro s; simp
  | cons r rows ih =>
      intro s
      rw [List.foldl_cons, ih (btStep s r), btStep_equity_len]
      simp [Nat.add_comm, Nat.add_assoc, Nat.add_left_comm]

theorem btStep_no_forced (s : BtState) (r : BRow) :
    (btStep s r).trades.any (fun t => t.reason == "기간 종료 강제 청산")
      = s.trades.any (fun t => t.reason == "기간 종료 강제 청산") := by
  unfold btStep
  split
  · simp
  · split
    · dsimp only
      rcases hrsi : optGt r.rsi RSI_OVERBOUGHT <;> rcases hdead : r.dead <;>
        simp [hrsi, hdead, List.any_append]
    · simp

theorem foldl_btStep_no_forced (rows : List BRow) : ∀ s : BtState,
    (rows.foldl btStep s).trades.any (fun t => t.reason == "기간 종료 강제 청산")
      = s.trades.any (fun t => t.reason == "기간 종료 강제 청산") := by
  induction rows with
  | nil => intro s; simp
  | cons r rows ih =>
      intro s
      rw [List.foldl_cons, ih (btStep s r), btStep_no_forced]

theorem btForce_spec (s : BtState) (df : List BRow) (hne : 0 < s.position → df ≠ []) :
    (btForce s df).equity.length
        = s.equity.length + (if 0 < s.position then 1 else 0) ∧
    (btForce s df).trades.any (fun t => t.reason == "기간 종료 강제 청산")
        = (s.trades.any (fun t => t.reason == "기간 종료 강제 청산")
           || decide (0 < s.position)) := by
  by_cases h : 0 < s.position
  · cases hL : df.getLast? with
    | none =>
        exact absurd (List.getLast?_eq_none_iff.mp hL) (hne h)
    | some last =>
        unfold btForce
        rw [if_pos h, hL]
        simp [List.any_append, h]
  · unfold btForce
    rw [if_neg h]
    simp [h]

/-- C3 (amended): the backtest produces exactly one EquityPoint per bar
that survives the indicator `dropna` filter (bars with any of rsi, ma5,
ma20 undefined are removed before the loop, not retained), plus exactly
one extra point if and only if the forced end-of-period liquidation
trade was recorded. -/
theorem equity_point_count (m : String) (bars : List (ℕ × ℚ)) (capital : ℚ) :
    (run_backtest m bars capital).equity.length
      = (dropnaRows (add_indicators bars)).length
        + (if (run_backtest m bars capital).trades.any
              (fun t => t.reason == "기간 종료 강제 청산") = true then 1 else 0) := by
  unfold run_backtest
  have hne : 0 < ((dropnaRows (add_indicators bars)).foldl btStep (btInit capital)).position →
      dropnaRows (add_indicators bars) ≠ [] := by
    intro hp hnil
    rw [hnil] at hp
    simp [List.foldl_nil, btInit] at hp
  have hspec := btForce_spec ((dropnaRows (add_indicators bars)).foldl btStep (btInit capital))
    (dropnaRows (add_indicators bars)) hne
  have hloopany := foldl_btStep_no_forced (dropnaRows (add_indicators bars)) (btInit capital)
  have hlooplen := foldl_btStep_equity_len (dropnaRows (add_indicators bars)) (btInit capital)
  have hbinitany : ((btInit capital).trades.any
      (fun t => t.reason == "기간 종료 강제 청산")) = false := rfl
  have hbinitlen : (btInit capital).equity.length = 0 := rfl
  rw [hbinitany] at hloopany
  rw [hbinitlen] at hlooplen
  simp only [hspec.1, hspec.2, hloopany, hlooplen, Bool.false_or, decide_eq_true_eq]
  omega

/-- C3 counterexample: on the one-bar input `[(0, 1)]` the backtest
produces zero EquityPoints and no forced liquidation, while the claim
demands one EquityPoint per input bar (the bar's indicators are NaN, so
the `dropna` filter removes it before the loop). -/
theorem equity_point_count_counterexample :
    (run_backtest "KRW-BTC" [((0 : ℕ), (1 : ℚ))] 1000000).equity.length = 0 ∧
    (run_backtest "KRW-BTC" [((0 : ℕ), (1 : ℚ))] 1000000).trades = [] ∧
    ([((0 : ℕ), (1 : ℚ))] : List (ℕ × ℚ)).length = 1 := by
  decide

/-! ## C2: the backtest exit condition -/

theorem scanl_getD_zero {α β : Type} (f : α → β → α) (b : α) (l : List β) (d : α) :
    (List.scanl f b l).getD 0 d = b := by
  cases l <;> simp [List.scanl]

theorem scanl_getD_succ {α β : Type} (f : α → β → α) (dA : α) (dB : β) :
    ∀ (l : List β) (b : α) (i : ℕ), i < l.length →
      (List.scanl f b l).getD (i + 1) dA
        = f ((List.scanl f b l).getD i dA) (l.getD i dB) := by
  intro l
  induction l with
  | nil => intro b i h; simp at h
  | cons x xs ih =>
      intro b i h
      cases i with
      | zero =>
          simp [List.scanl_cons, List.getD_cons_succ, List.getD_cons_zero, scanl_getD_zero]
      | succ n =>
          have hn : n < xs.length := by simpa using h
          simp only [List.scanl_cons, List.getD_cons_succ]
          exact ih (f b x) n hn

/-- C2 (amended): at every bar of the filtered frame where a position is
open and RSI is defined, the position is exited in full at that bar's
close if and only if `rsi > RSI_OVERBOUGHT` or the bar's
transition-based dead-cross flag (`ma5.shift(1) >= ma20.shift(1)` and
`ma5 < ma20`, as computed by `add_indicators` — not the level comparison
`ma5 < ma20` alone) is set; the recorded trade's reason then names
exactly the triggering condition(s). -/
theorem backtest_exit_rule (bars : List (ℕ × ℚ)) (capital : ℚ) (i : ℕ) (r : ℚ)
    (hi : i < (dropnaRows (add_indicators bars)).length)
    (hopen : 0 < ((btStates capital (dropnaRows (add_indicators bars))).getD i
        (btInit capital)).position)
    (hr : ((dropnaRows (add_indicators bars)).getD i default).rsi = some r) :
    let rows := dropnaRows (add_indicators bars)
    let st := (btStates capital rows).getD i (btInit capital)
    let row := rows.getD i default
    let stNext := (btStates capital rows).getD (i + 1) (btInit capital)
    (stNext.position = 0 ↔ (RSI_OVERBOUGHT < r ∨ row.dead = true)) ∧
    ((RSI_OVERBOUGHT < r ∨ row.dead = true) →
      stNext.cash = st.position * row.close ∧
      stNext.trades = st.trades ++
        [{ entry_date := st.entry_date, exit_date := row.date,
           entry_price := st.entry_price, exit_price := row.close,
           pnl_krw := st.position * row.close - st.position * st.entry_price,
           pnl_pct := (row.close - st.entry_price) / st.entry_price * 100,
           reason := if RSI_OVERBOUGHT < r then
                       (if row.dead then "RSI 과매수 + 데드크로스" else "RSI 과매수")
                     else "데드크로스" }]) := by
  intro rows st row stNext
  have hstep : stNext = btStep st row :=
    scanl_getD_succ btStep (btInit capital) default rows (btInit capital) i hi
  have hrr : row.rsi = some r := hr
  have hne : st.position ≠ 0 := ne_of_gt hopen
  rw [hstep]
  unfold btStep
  rw [hrr]
  simp only [optLt, optGt, Option.isSome_some, decide_eq_false hne, Bool.false_and,
    Bool.false_eq_true, if_false, decide_eq_true hopen, Bool.true_and, if_true]
  by_cases hov : RSI_OVERBOUGHT < r <;> rcases hdead : row.dead <;>
    simp only [hdead, decide_eq_true, decide_eq_false, hov, decide_eq_true_eq,
      Bool.or_true, Bool.or_false, Bool.true_and, Bool.and_true, Bool.false_and,
      Bool.and_false, if_true, if_false, decide_eq_false_iff_not, not_true, not_false_iff]
  all_goals simp [hov, hne]

/-- C2 counterexample: on the strictly declining series `declineBars 22`
the position opened at the first filtered bar is still open at the next
bar, where RSI is defined (= 0 ≤ 70) and the *level* dead-cross test
`ma5 < ma20` holds — yet no exit happens, because the code tests the
transition flag `dead` (false here), not the level comparison the claim
states. -/
theorem backtest_level_dead_cross_counterexample :
    0 < ((btStates 1000000 (dropnaRows (add_indicators (declineBars 22)))).getD 1
        (btInit 1000000)).position ∧
    ((dropnaRows (add_indicators (declineBars 22))).getD 1 default).rsi = some 0 ∧
    (0 : ℚ) ≤ RSI_OVERBOUGHT ∧
    cmpLt ((dropnaRows (add_indicators (declineBars 22))).getD 1 default).ma5
      ((dropnaRows (add_indicators (declineBars 22))).getD 1 default).ma20 = true ∧
    ((dropnaRows (add_indicators (declineBars 22))).getD 1 default).dead = false ∧
    0 < ((btStates 1000000 (dropnaRows (add_indicators (declineBars 22)))).getD 2
        (btInit 1000000)).position := by
  decide

/-- Witness for `backtest_exit_rule`: on `vBars` the position opened at
the first filtered bar is exited at filtered bar 5, where RSI is
3000/41 > 70. -/
theorem backtest_exit_rule_witness :
    ((btStates 1000000 (dropnaRows (add_indicators vBars))).getD 6 (btInit 1000000)).position
      = 0 ∧
    ((btStates 1000000 (dropnaRows (add_indicators vBars))).getD 6 (btInit 1000000)).cash
      = ((btStates 1000000 (dropnaRows (add_indicators vBars))).getD 5
          (btInit 1000000)).position
        * ((dropnaRows (add_indicators vBars)).getD 5 default).close :=
  ⟨(backtest_exit_rule vBars 1000000 5 (3000 / 41) (by decide) (by decide) (by decide)).1.mpr
      (Or.inl (by decide)),
   ((backtest_exit_rule vBars 1000000 5 (3000 / 41) (by decide) (by decide) (by decide)).2
      (Or.inl (by decide))).1⟩

/-! ## C7: RSI range and warm-up, for both smoothing variants -/

theorem getD_range_map {α : Type} (f : ℕ → α) (n i : ℕ) (d : α) :
    ((List.range n).map f).getD i d = if i < n then f i else d := by
  by_cases h : i < n
  · simp [List.getD_eq_getElem?_getD, List.getElem?_map, List.getElem?_range, h]
  · have hnone : (List.range n)[i]? = none :=
      List.getElem?_eq_none (by simpa using not_lt.mp h)
    simp [List.getD_eq_getElem?_getD, List.getElem?_map, hnone, h]

theorem getD_getD_nonneg (l : List (Option ℚ)) (hvals : ∀ o ∈ l, 0 ≤ o.getD 0)
    (j : ℕ) : 0 ≤ (l.getD j none).getD 0 := by
  rcases lt_or_ge j l.length with hlt | hge
  · rw [List.getD_eq_getElem l none hlt]
    exact hvals _ (List.getElem_mem hlt)
  · rw [List.getD_eq_default l none hge]
    simp

theorem zipWith_optf_getD_none (f : Option ℚ → Option ℚ → Option ℚ)
    (hf : ∀ b, f none b = none) :
    ∀ (gs ls : List (Option ℚ)) (i : ℕ), gs.getD i none = none →
      (List.zipWith f gs ls).getD i none = none := by
  intro gs
  induction gs with
  | nil => intro ls i h; simp
  | cons g gs ih =>
      intro ls i h
      cases ls with
      | nil => simp
      | cons l ls =>
          cases i with
          | zero =>
              simp only [List.getD_cons_zero] at h
              subst h
              simp [List.zipWith_cons_cons, hf l]
          | succ n =>
              simp only [List.zipWith_cons_cons, List.getD_cons_succ] at h ⊢
              exact ih ls n h

theorem zipWith_optf_getD_some (f : Option ℚ → Option ℚ → Option ℚ) :
    ∀ (gs ls : List (Option ℚ)) (i : ℕ) (x : ℚ),
      (List.zipWith f gs ls).getD i none = some x →
      ∃ g l, gs.getD i none = g ∧ ls.getD i none = l ∧ f g l = some x := by
  intro gs
  induction gs with
  | nil => intro ls i x h; simp at h
  | cons g gs ih =>
      intro ls i x h
      cases ls with
      | nil => simp at h
      | cons l ls =>
          cases i with
          | zero =>
              simp only [List.zipWith_cons_cons, List.getD_cons_zero] at h ⊢
              exact ⟨g, l, rfl, rfl, h⟩
          | succ n =>
              simp only [List.zipWith_cons_cons, List.getD_cons_succ] at h ⊢
              exact ih ls n x h

theorem pdDiff_map_head_none (s : List ℚ) (f : ℚ → ℚ) :
    ((pdDiff s).map (Option.map f)).getD 0 none = none := by
  cases s <;> rfl

theorem gains_nonneg (s : List ℚ) :
    ∀ o ∈ (pdDiff s).map (Option.map (fun d => max d 0)), 0 ≤ o.getD 0 := by
  intro o ho
  obtain ⟨d, _, rfl⟩ := List.mem_map.mp ho
  cases d with
  | none => simp
  | some y => simp

theorem losses_nonneg (s : List ℚ) :
    ∀ o ∈ (pdDiff s).map (Option.map (fun d => -(min d 0))), 0 ≤ o.getD 0 := by
  intro o ho
  obtain ⟨d, _, rfl⟩ := List.mem_map.mp ho
  cases d with
  | none => simp
  | some y => simp [neg_nonneg, min_le_right]

theorem rsi_formula_bounds (g l : ℚ) (hg : 0 ≤ g) (hl : 0 ≤ l) :
    0 ≤ 100 - 100 / (1 + g / l) ∧ 100 - 100 / (1 + g / l) ≤ 100 := by
  have hrs : 0 ≤ g / l := div_nonneg hg hl
  have h1 : (0 : ℚ) < 1 + g / l := by linarith
  constructor
  · have hle : 100 / (1 + g / l) ≤ 100 := div_le_self (by norm_num) (by linarith)
    linarith
  · have hgt : 0 < 100 / (1 + g / l) := div_pos (by norm_num) h1
    linarith

theorem foldl_add_getD_nonneg (ws : List (Option ℚ)) : ∀ a : ℚ, 0 ≤ a →
    (∀ o ∈ ws, 0 ≤ o.getD 0) → 0 ≤ ws.foldl (fun acc o => acc + o.getD 0) a := by
  induction ws with
  | nil => intro a ha _; simpa using ha
  | cons o ws ih =>
      intro a ha hall
      simp only [List.foldl_cons]
      refine ih (a + o.getD 0) ?_ (fun x hx => hall x (List.mem_cons_of_mem _ hx))
      have ho := hall o (List.mem_cons_self _ _)
      linarith

theorem rollingMean_head_none_warmup (period : ℕ) (hp : 1 ≤ period)
    (l : List (Option ℚ)) (hhead : l.getD 0 none = none) (i : ℕ) (hi : i < period) :
    (rollingMean period l).getD i none = none := by
  unfold rollingMean
  rw [getD_range_map]
  by_cases hlen : i < l.length
  · rw [if_pos hlen]
    by_cases hip : i + 1 < period
    · rw [if_pos hip]
    · rw [if_neg hip]
      have hz : i + 1 - period = 0 := by omega
      cases l with
      | nil => simp at hlen
      | cons o rest =>
          simp only [List.getD_cons_zero] at hhead
          subst hhead
          cases period with
          | zero => omega
          | succ p => simp [hz]
  · rw [if_neg hlen]

theorem rollingMean_getD_some_nonneg (period : ℕ) (l : List (Option ℚ))
    (hvals : ∀ o ∈ l, 0 ≤ o.getD 0) (i : ℕ) (v : ℚ)
    (h : (rollingMean period l).getD i none = some v) : 0 ≤ v := by
  unfold rollingMean at h
  rw [getD_range_map] at h
  by_cases hlen : i < l.length
  · rw [if_pos hlen] at h
    by_cases hip : i + 1 < period
    · rw [if_pos hip] at h
      exact absurd h (by simp)
    · rw [if_neg hip] at h
      simp only [] at h
      by_cases hall : ((l.drop (i + 1 - period)).take period).all Option.isSome
      · rw [if_pos hall] at h
        have hv := Option.some.inj h
        have hsum : 0 ≤ ((l.drop (i + 1 - period)).take period).foldl
            (fun acc o => acc + o.getD 0) 0 := by
          refine foldl_add_getD_nonneg _ 0 le_rfl (fun o ho => ?_)
          exact hvals o (List.mem_of_mem_drop (List.mem_of_mem_take ho))
        rw [← hv]
        exact div_nonneg hsum (by positivity)
      · rw [if_neg hall] at h
        exact absurd h (by simp)
  · rw [if_neg hlen] at h
    exact absurd h (by simp)

theorem count_take_le_of_head_none (l : List (Option ℚ)) (hhead : l.getD 0 none = none)
    (i : ℕ) : (l.take (i + 1)).countP (fun o => o.isSome) ≤ i := by
  cases l with
  | nil => simp
  | cons o rest =>
      simp only [List.getD_cons_zero] at hhead
      subst hhead
      rw [List.take_succ_cons]
      calc (none :: rest.take i).countP (fun o => o.isSome)
          = (rest.take i).countP (fun o => o.isSome) := by simp [List.countP_cons]
        _ ≤ (rest.take i).length := List.countP_le_length _
        _ ≤ i := by simp [List.length_take]

theorem ewmMean_warmup (com minp : ℕ) (l : List (Option ℚ)) (i : ℕ)
    (hc : (l.take (i + 1)).countP (fun o => o.isSome) < minp) :
    (ewmMean com minp l).getD i none = none := by
  unfold ewmMean
  rw [getD_range_map]
  by_cases hlen : i < l.length
  · rw [if_pos hlen]
    simp only [if_pos hc]
  · rw [if_neg hlen]

theorem ewm_fold_num_nonneg (wv : List (Option ℚ × ℚ)) : ∀ a : ℚ, 0 ≤ a →
    (∀ p ∈ wv, 0 ≤ p.1.getD 0 ∧ 0 ≤ p.2) →
    0 ≤ wv.foldl (fun acc ow =>
      match ow.1 with | some v => acc + v * ow.2 | none => acc) a := by
  induction wv with
  | nil => intro a ha _; simpa using ha
  | cons p ps ih =>
      intro a ha hall
      simp only [List.foldl_cons]
      have hp := hall p (List.mem_cons_self _ _)
      have hrec := fun a ha => ih a ha (fun q hq => hall q (List.mem_cons_of_mem _ hq))
      cases hp1 : p.1 with
      | none => exact hrec a ha
      | some v =>
          refine hrec (a + v * p.2) ?_
          rw [hp1] at hp
          simp only [Option.getD_some] at hp
          nlinarith [hp.1, hp.2]

theorem ewm_fold_den_nonneg (wv : List (Option ℚ × ℚ)) : ∀ a : ℚ, 0 ≤ a →
    (∀ p ∈ wv, 0 ≤ p.2) →
    0 ≤ wv.foldl (fun acc ow =>
      match ow.1 with | some _ => acc + ow.2 | none => acc) a := by
  induction wv with
  | nil => intro a ha _; simpa using ha
  | cons p ps ih =>
      intro a ha hall
      simp only [List.foldl_cons]
      have hp := hall p (List.mem_cons_self _ _)
      have hrec := fun a ha => ih a ha (fun q hq => hall q (List.mem_cons_of_mem _ hq))
      cases hp1 : p.1 with
      | none => exact hrec a ha
      | some v => exact hrec (a + p.2) (by linarith)

theorem ewmMean_getD_some_nonneg (com minp : ℕ) (l : List (Option ℚ))
    (hvals : ∀ o ∈ l, 0 ≤ o.getD 0) (i : ℕ) (v : ℚ)
    (h : (ewmMean com minp l).getD i none = some v) : 0 ≤ v := by
  unfold ewmMean at h
  rw [getD_range_map] at h
  by_cases hlen : i < l.length
  · rw [if_pos hlen] at h
    simp only [] at h
    by_cases hc : (l.take (i + 1)).countP (fun o => o.isSome) < minp
    · rw [if_pos hc] at h
      exact absurd h (by simp)
    · rw [if_neg hc] at h
      have hbeta : 0 ≤ (com : ℚ) / ((com : ℚ) + 1) := by positivity
      have hmem : ∀ p ∈ (List.range (i + 1)).map
          (fun j => (l.getD j none, ((com : ℚ) / ((com : ℚ) + 1)) ^ (i - j))),
          0 ≤ p.1.getD 0 ∧ 0 ≤ p.2 := by
        intro p hp
        obtain ⟨j, _, rfl⟩ := List.mem_map.mp hp
        exact ⟨getD_getD_nonneg l hvals j, pow_nonneg hbeta _⟩
      set wv := (List.range (i + 1)).map
        (fun j => (l.getD j none, ((com : ℚ) / ((com : ℚ) + 1)) ^ (i - j))) with hwv
      by_cases hden : wv.foldl (fun acc ow =>
          match ow.1 with | some _ => acc + ow.2 | none => acc) 0 = 0
      · rw [if_pos hden] at h
        exact absurd h (by simp)
      · rw [if_neg hden] at h
        have hv := Option.some.inj h
        rw [← hv]
        refine div_nonneg ?_ ?_
        · exact ewm_fold_num_nonneg wv 0 le_rfl hmem
        · exact ewm_fold_den_nonneg wv 0 le_rfl (fun p hp => (hmem p hp).2)
  · rw [if_neg hlen] at h
    exact absurd h (by simp)

/-- C7: for every close series and period ≥ 1, both RSI variants — the
rolling-mean `calc_rsi` of the backtest path and the Wilder
exponential-smoothing `calculate_rsi` of the live path — are undefined
at each of the first `period` indices and lie in [0, 100] wherever they
are defined. -/
theorem rsi_bounds_and_warmup (series : List ℚ) (period : ℕ) (hp : 1 ≤ period) :
    (∀ i < period, (calc_rsi series period).getD i none = none) ∧
    (∀ i x, (calc_rsi series period).getD i none = some x → 0 ≤ x ∧ x ≤ 100) ∧
    (∀ i < period, (calculate_rsi series period).getD i none = none) ∧
    (∀ i x, (calculate_rsi series period).getD i none = some x → 0 ≤ x ∧ x ≤ 100) := by
  have hfnone : ∀ b, (fun g l =>
      match g, l with
      | some g, some l => if l = 0 then none else some (100 - 100 / (1 + g / l))
      | _, _ => (none : Option ℚ)) none b = none := by
    intro b
    cases b <;> rfl
  refine ⟨?_, ?_, ?_, ?_⟩
  · intro i hi
    exact zipWith_optf_getD_none _ hfnone _ _ i
      (rollingMean_head_none_warmup period hp _ (pdDiff_map_head_none series _) i hi)
  · intro i x hx
    obtain ⟨g, l, hg, hl, hf⟩ := zipWith_optf_getD_some _ _ _ i x hx
    rcases g with _ | gv
    · rcases l with _ | lv <;> simp at hf
    rcases l with _ | lv
    · simp at hf
    by_cases hlv : lv = 0
    · simp [hlv] at hf
    · simp only [if_neg hlv] at hf
      have hgv : 0 ≤ gv :=
        rollingMean_getD_some_nonneg period _ (gains_nonneg series) i gv hg
      have hlv2 : 0 ≤ lv :=
        rollingMean_getD_some_nonneg period _ (losses_nonneg series) i lv hl
      rw [← Option.some.inj hf]
      exact rsi_formula_bounds gv lv hgv hlv2
  · intro i hi
    have hcount : (((pdDiff series).map (Option.map (fun d => max d 0))).take
        (i + 1)).countP (fun o => o.isSome) < period :=
      lt_of_le_of_lt (count_take_le_of_head_none _ (pdDiff_map_head_none series _) i) hi
    exact zipWith_optf_getD_none _ hfnone _ _ i
      (ewmMean_warmup (period - 1) period _ i hcount)
  · intro i x hx
    obtain ⟨g, l, hg, hl, hf⟩ := zipWith_optf_getD_some _ _ _ i x hx
    rcases g with _ | gv
    · rcases l with _ | lv <;> simp at hf
    rcases l with _ | lv
    · simp at hf
    by_cases hlv : lv = 0
    · simp [hlv] at hf
    · simp only [if_neg hlv] at hf
      have hgv : 0 ≤ gv :=
        ewmMean_getD_some_nonneg (period - 1) period _ (gains_nonneg series) i gv hg
      have hlv2 : 0 ≤ lv :=
        ewmMean_getD_some_nonneg (period - 1) period _ (losses_nonneg series) i lv hl
      rw [← Option.some.inj hf]
      exact rsi_formula_bounds gv lv hgv hlv2

/-- Witness for `rsi_bounds_and_warmup` on a 16-bar declining series
with the default period 14: both variants are NaN at index 0 and both
evaluate to 0 ∈ [0, 100] at index 14. -/
theorem rsi_bounds_and_warmup_witness :
    (calc_rsi ((List.range 16).map (fun i => (100 : ℚ) - i)) 14).getD 0 none = none ∧
    (0 ≤ (0 : ℚ) ∧ (0 : ℚ) ≤ 100) ∧
    (calculate_rsi ((List.range 16).map (fun i => (100 : ℚ) - i)) 14).getD 0 none = none ∧
    (0 ≤ (0 : ℚ) ∧ (0 : ℚ) ≤ 100) :=
  ⟨(rsi_bounds_and_warmup ((List.range 16).map (fun i => (100 : ℚ) - i)) 14
      (by decide)).1 0 (by decide),
   (rsi_bounds_and_warmup ((List.range 16).map (fun i => (100 : ℚ) - i)) 14
      (by decide)).2.1 14 0 (by decide),
   (rsi_bounds_and_warmup ((List.range 16).map (fun i => (100 : ℚ) - i)) 14
      (by decide)).2.2.1 0 (by decide),
   (rsi_bounds_and_warmup ((List.range 16).map (fun i => (100 : ℚ) - i)) 14
      (by decide)).2.2.2 14 0 (by decide)⟩

end Crypto
